import Mathlib

/-!
Verification of the money-market overseer contract
(`src/packages/moneymarket/src/overseer.rs`) against its natural-language
specification.

The repository ships the overseer's external interface (message and
response schemas).  Those types are embedded directly from the source.
The handler semantics (lock/unlock, borrow-limit computation, epoch
controller, liquidation) are not part of the shipped source; they are
modelled from the specification and each such definition is marked
`Modelled from the spec:` in its doc comment.

Conventions of the embedding:
* `HumanAddr` is `String`.
* `Uint256` is `Nat`, with `maxU256 = 2^256 - 1` as the saturation bound
  where the spec demands saturating arithmetic.
* `Decimal256` is `Nat` counting atomics with 18 fractional decimal
  digits (`decFrac = 10^18`), as in `cosmwasm_bignumber::Decimal256`.
* Fallible handlers return `Except Error _`; an error result means the
  transaction is rejected and no state is persisted (the host's
  transactional store), so atomicity is by construction.
-/

namespace Overseer

/-- Human-readable account/contract address (`cosmwasm_std::HumanAddr`). -/
abbrev HumanAddr := String

/-- 256-bit unsigned integer (`cosmwasm_bignumber::Uint256`), embedded as `Nat`. -/
abbrev Uint256 := Nat

/-- Fixed-point decimal with 18 fractional digits
(`cosmwasm_bignumber::Decimal256`), embedded as its `Nat` atomics value. -/
abbrev Decimal256 := Nat

/-- Number of atomics per unit of `Decimal256` (`10^18`). -/
def decFrac : Nat := 10 ^ 18

/-- Largest representable `Uint256` value, `2^256 - 1`. -/
def maxU256 : Nat := 2 ^ 256 - 1

/-- Saturating addition on `Uint256` values: caps at `maxU256`
instead of overflowing. -/
def satAdd (a b : Nat) : Nat := min (a + b) maxU256

/-- Multiply a `Uint256` by a `Decimal256` (truncating fixed-point
multiplication), saturating at `maxU256`. -/
def decMul (d : Decimal256) (x : Uint256) : Uint256 :=
  min (x * d / decFrac) maxU256

/-- `TokensHuman` from `moneymarket::tokens`: a list of
(collateral token address, amount) pairs. -/
abbrev TokensHuman := List (HumanAddr × Uint256)

/-- `InitMsg` of the overseer (src lines 10–39). -/
structure InitMsg where
  owner_addr : HumanAddr
  oracle_contract : HumanAddr
  market_contract : HumanAddr
  liquidation_contract : HumanAddr
  collector_contract : HumanAddr
  stable_denom : String
  epoch_period : Nat
  threshold_deposit_rate : Decimal256
  target_deposit_rate : Decimal256
  buffer_distribution_factor : Decimal256
  anc_purchase_factor : Decimal256
  price_timeframe : Nat

/-- The fields of the `HandleMsg::UpdateConfig` variant (src lines 49–59):
every field is optional.  Note the variant has no field for
`market_contract`, `collector_contract` or `stable_denom`. -/
structure UpdateConfigMsg where
  owner_addr : Option HumanAddr
  oracle_contract : Option HumanAddr
  liquidation_contract : Option HumanAddr
  threshold_deposit_rate : Option Decimal256
  target_deposit_rate : Option Decimal256
  buffer_distribution_factor : Option Decimal256
  anc_purchase_factor : Option Decimal256
  epoch_period : Option Nat
  price_timeframe : Option Nat

/-- `HandleMsg` of the overseer (src lines 43–102). -/
inductive HandleMsg where
  | updateConfig (m : UpdateConfigMsg)
  | whitelist (name : String) (symbol : String) (collateral_token : HumanAddr)
      (custody_contract : HumanAddr) (max_ltv : Decimal256)
  | updateWhitelist (collateral_token : HumanAddr)
      (custody_contract : Option HumanAddr) (max_ltv : Option Decimal256)
  | executeEpochOperations
  | updateEpochState (interest_buffer : Uint256)
  | lockCollateral (collaterals : TokensHuman)
  | unlockCollateral (collaterals : TokensHuman)
  | liquidateCollateral (borrower : HumanAddr)

/-- `QueryMsg` of the overseer (src lines 106–125). -/
inductive QueryMsg where
  | config
  | epochState
  | whitelist (collateral_token : Option HumanAddr)
      (start_after : Option HumanAddr) (limit : Option Nat)
  | collaterals (borrower : HumanAddr)
  | allCollaterals (start_after : Option HumanAddr) (limit : Option Nat)
  | borrowLimit (borrower : HumanAddr) (block_time : Option Nat)

/-- `MigrateMsg` of the overseer (src lines 181–184). -/
structure MigrateMsg where
  target_deposit_rate : Decimal256
  threshold_deposit_rate : Decimal256

/-- The stored `Config` singleton.  Its attribute set is taken from the
source's `ConfigResponse` (src lines 129–142), which echoes the stored
configuration. -/
structure Config where
  owner_addr : HumanAddr
  oracle_contract : HumanAddr
  market_contract : HumanAddr
  liquidation_contract : HumanAddr
  collector_contract : HumanAddr
  threshold_deposit_rate : Decimal256
  target_deposit_rate : Decimal256
  buffer_distribution_factor : Decimal256
  anc_purchase_factor : Decimal256
  stable_denom : String
  epoch_period : Nat
  price_timeframe : Nat
deriving DecidableEq

/-- Modelled from the spec: the `EpochState` singleton — current deposit
rate, last-executed epoch height and the accumulated interest buffer
(spec §3). -/
structure EpochState where
  deposit_rate : Decimal256
  last_executed_height : Nat
  interest_buffer : Uint256
deriving DecidableEq

/-- A whitelist entry's stored attributes, from the source's
`WhitelistResponseElem` (src lines 146–152) minus the key
(the collateral token address). -/
structure WhitelistElem where
  name : String
  symbol : String
  max_ltv : Decimal256
  custody_contract : HumanAddr
deriving DecidableEq

/-- Modelled from the spec: the whole persisted state of the overseer —
`Config` and `EpochState` singletons, the Whitelist Registry keyed by
collateral-token address, and the Collateral Ledger keyed by borrower
then collateral-token address (spec §3). -/
structure State where
  config : Config
  epoch_state : EpochState
  whitelist : List (HumanAddr × WhitelistElem)
  collaterals : List (HumanAddr × TokensHuman)
deriving DecidableEq

/-- The error taxonomy of the overseer (spec §7). -/
inductive Error where
  | Unauthorized
  | NotWhitelisted
  | AlreadyWhitelisted
  | InvalidAmount
  | InsufficientCollateral
  | BorrowLimitExceeded
  | StalePrice
  | EpochNotElapsed
  | Solvent
deriving DecidableEq

deriving instance DecidableEq for Except

/-- Association-list lookup keyed by address. -/
def alGet {α : Type} : List (HumanAddr × α) → HumanAddr → Option α
  | [], _ => none
  | (k, v) :: rest, key => if key = k then some v else alGet rest key

/-- Replace the value bound to `key`, or bind it at the front when absent. -/
def alSet {α : Type} : List (HumanAddr × α) → HumanAddr → α → List (HumanAddr × α)
  | [], key, v => [(key, v)]
  | (k, w) :: rest, key, v =>
      if key = k then (k, v) :: rest else (k, w) :: alSet rest key v

/-- Modelled from the spec: effect of the owner-only `UpdateConfig`
command on the stored `Config` — each optional field present in the
message (src lines 49–59) overwrites the corresponding attribute,
omitted fields are left unchanged (spec §6 "UpdateConfig(all fields
optional)"). -/
def applyUpdateConfig (c : Config) (m : UpdateConfigMsg) : Config :=
  { c with
    owner_addr := m.owner_addr.getD c.owner_addr
    oracle_contract := m.oracle_contract.getD c.oracle_contract
    liquidation_contract := m.liquidation_contract.getD c.liquidation_contract
    threshold_deposit_rate := m.threshold_deposit_rate.getD c.threshold_deposit_rate
    target_deposit_rate := m.target_deposit_rate.getD c.target_deposit_rate
    buffer_distribution_factor :=
      m.buffer_distribution_factor.getD c.buffer_distribution_factor
    anc_purchase_factor := m.anc_purchase_factor.getD c.anc_purchase_factor
    epoch_period := m.epoch_period.getD c.epoch_period
    price_timeframe := m.price_timeframe.getD c.price_timeframe }

/-- Modelled from the spec: the `Migrate` entry point — "reinitializes
only these two rate fields, preserving all other persisted state"
(spec §6); the message shape is `MigrateMsg` (src lines 181–184). -/
def migrate (s : State) (m : MigrateMsg) : State :=
  { s with
    config :=
      { s.config with
        target_deposit_rate := m.target_deposit_rate
        threshold_deposit_rate := m.threshold_deposit_rate } }

/-- Outbound fire-and-forget instructions issued to collaborators
(custody delegates, market, collector) — spec §4.5, §6. -/
inductive Instruction where
  | distributeRewards (custody : HumanAddr)
  | transferBufferToMarket (amount : Uint256)
  | purchaseAnc (amount : Uint256)
  | custodyLockCollateral (custody borrower : HumanAddr) (amount : Uint256)
  | custodyUnlockCollateral (custody borrower : HumanAddr) (amount : Uint256)
  | custodySeize (custody borrower : HumanAddr) (amount : Uint256)
deriving DecidableEq

/-- Modelled from the spec: the execution environment of one inbound
message — the caller, block height/time, and the external collaborators
consumed via their interfaces (spec §6): the price oracle returning
(price, last-updated block) per asset, the market's outstanding-debt
view, the effective deposit rate of the elapsed period, and the
liquidation-amount model returning a seizure plan from debt and
positions. -/
structure Env where
  sender : HumanAddr
  block_height : Nat
  block_time : Nat
  oracle : HumanAddr → Decimal256 × Nat
  debt_of : HumanAddr → Uint256
  effective_deposit_rate : Decimal256
  liq_plan : Uint256 → TokensHuman → TokensHuman

/-- A price is fresh when its timestamp is within `price_timeframe`
blocks of the evaluation time (spec §4.3). -/
def priceFresh (block_time last_updated price_timeframe : Nat) : Bool :=
  block_time - last_updated ≤ price_timeframe

/-- Modelled from the spec: the Risk Engine's borrow-limit computation
over one list of collateral positions — for each position, look up its
whitelist entry, fetch the oracle price, require freshness (else
`StalePrice`), take `amount × price × max_ltv`, and sum with saturating
arithmetic (spec §4.3). -/
def borrowLimitToks (cfg : Config) (wl : List (HumanAddr × WhitelistElem))
    (oracle : HumanAddr → Decimal256 × Nat) (block_time : Nat) :
    TokensHuman → Except Error Uint256
  | [] => .ok 0
  | (asset, amount) :: rest =>
      match alGet wl asset with
      | none => .error .NotWhitelisted
      | some elem =>
          let p := oracle asset
          if priceFresh block_time p.2 cfg.price_timeframe then
            match borrowLimitToks cfg wl oracle block_time rest with
            | .error e => .error e
            | .ok acc => .ok (satAdd (decMul elem.max_ltv (decMul p.1 amount)) acc)
          else .error .StalePrice

/-- The positions of one borrower in the Collateral Ledger (empty list
when the borrower has no row). -/
def positionsOf (s : State) (borrower : HumanAddr) : TokensHuman :=
  (alGet s.collaterals borrower).getD []

/-- The locked amount of one (borrower, asset) position (0 when absent). -/
def lockedAmount (s : State) (borrower asset : HumanAddr) : Uint256 :=
  ((alGet s.collaterals borrower).getD []).map
    (fun p => if p.1 = asset then p.2 else 0) |>.sum

/-- Modelled from the spec: `BorrowLimit` query (src lines 121–124,
spec §4.3) — pure read computing the borrower's aggregate limit at
`block_time.getD env_time`. -/
def queryBorrowLimit (s : State) (env_time : Nat)
    (oracle : HumanAddr → Decimal256 × Nat) (borrower : HumanAddr)
    (block_time : Option Nat) : Except Error Uint256 :=
  borrowLimitToks s.config s.whitelist oracle (block_time.getD env_time)
    (positionsOf s borrower)

/-- Increase the amount bound to `asset`, appending a fresh position
when absent (spec §3: "Created on first lock; incremented … by lock"). -/
def toksAdd : TokensHuman → HumanAddr → Uint256 → TokensHuman
  | [], asset, amount => [(asset, amount)]
  | (k, v) :: rest, asset, amount =>
      if asset = k then (k, v + amount) :: rest
      else (k, v) :: toksAdd rest asset amount

/-- Decrease the amount bound to `asset`, dropping the position when it
reaches zero (spec §3: "entry removed when amount reaches zero"). -/
def toksSub : TokensHuman → HumanAddr → Uint256 → TokensHuman
  | [], _, _ => []
  | (k, v) :: rest, asset, amount =>
      if asset = k then
        (if v - amount = 0 then rest else (k, v - amount) :: rest)
      else (k, v) :: toksSub rest asset amount

/-- Modelled from the spec: validation of one `lock_collateral` pair —
`NotWhitelisted` when the asset has no registry entry, `InvalidAmount`
when the amount is zero (spec §4.2). -/
def validateLockPair (wl : List (HumanAddr × WhitelistElem))
    (pair : HumanAddr × Uint256) : Except Error WhitelistElem :=
  match alGet wl pair.1 with
  | none => .error .NotWhitelisted
  | some elem => if pair.2 = 0 then .error .InvalidAmount else .ok elem

/-- Modelled from the spec: `lock_collateral` (src lines 89–91,
spec §4.2) — validates every pair, then increases the sender's
positions and instructs each asset's custody delegate; all-or-nothing
across the batch. -/
def lockCollateral (s : State) (borrower : HumanAddr) :
    TokensHuman → Except Error (State × List Instruction)
  | [] => .ok (s, [])
  | pair :: rest =>
      match validateLockPair s.whitelist pair with
      | .error e => .error e
      | .ok elem =>
          match lockCollateral s borrower rest with
          | .error e => .error e
          | .ok (s1, instrs) =>
              .ok ({ s1 with
                       collaterals := alSet s1.collaterals borrower
                         (toksAdd (positionsOf s1 borrower) pair.1 pair.2) },
                   .custodyLockCollateral elem.custody_contract borrower pair.2
                     :: instrs)

/-- Modelled from the spec: tentatively apply the decreases of one
`unlock_collateral` batch to a position list — `InsufficientCollateral`
when an amount exceeds the current locked position (spec §4.2). -/
def unlockToks (toks : TokensHuman) : TokensHuman → Except Error TokensHuman
  | [] => .ok toks
  | (asset, amount) :: rest =>
      let cur := (((toks.map
        (fun p => if p.1 = asset then p.2 else 0))).sum)
      if cur < amount then .error .InsufficientCollateral
      else
        match unlockToks (toksSub toks asset amount) rest with
        | .error e => .error e
        | .ok toks2 => .ok toks2

/-- Modelled from the spec: custody-withdrawal instructions of an
unlock batch (spec §4.2's side effects). -/
def unlockInstrs (wl : List (HumanAddr × WhitelistElem))
    (borrower : HumanAddr) (batch : TokensHuman) : List Instruction :=
  batch.filterMap (fun pair =>
    (alGet wl pair.1).map
      (fun elem => .custodyUnlockCollateral elem.custody_contract borrower pair.2))

/-- Modelled from the spec: `unlock_collateral` (src lines 92–94,
spec §4.2) — tentatively applies all decreases, recomputes the
borrower's borrow limit, fails with `BorrowLimitExceeded` when the
outstanding debt obtained from the market collaborator exceeds the new
limit, rejecting the whole batch; on success persists the decreased
positions. -/
def unlockCollateral (s : State) (env : Env) (batch : TokensHuman) :
    Except Error (State × List Instruction) :=
  match unlockToks (positionsOf s env.sender) batch with
  | .error e => .error e
  | .ok toks2 =>
      match borrowLimitToks s.config s.whitelist env.oracle env.block_time toks2 with
      | .error e => .error e
      | .ok limit =>
          if limit < env.debt_of env.sender then .error .BorrowLimitExceeded
          else
            .ok ({ s with collaterals := alSet s.collaterals env.sender toks2 },
                 unlockInstrs s.whitelist env.sender batch)

/-- Modelled from the spec: `liquidate_collateral` (src lines 99–101,
spec §4.4) — permissionless; compares the borrower's outstanding debt
with the borrow limit, fails with `Solvent` when `debt ≤ limit`,
otherwise seizes the plan returned by the liquidation-amount model. -/
def liquidateCollateral (s : State) (env : Env) (borrower : HumanAddr) :
    Except Error (State × List Instruction) :=
  match borrowLimitToks s.config s.whitelist env.oracle env.block_time
      (positionsOf s borrower) with
  | .error e => .error e
  | .ok limit =>
      let debt := env.debt_of borrower
      if debt ≤ limit then .error .Solvent
      else
        let plan := env.liq_plan debt (positionsOf s borrower)
        let toks2 := plan.foldl (fun acc p => toksSub acc p.1 p.2)
          (positionsOf s borrower)
        .ok ({ s with collaterals := alSet s.collaterals borrower toks2 },
             unlockInstrs s.whitelist borrower plan |>.map
               (fun i => match i with
                 | .custodyUnlockCollateral c b a => .custodySeize c b a
                 | other => other))

/-- Modelled from the spec: `execute_epoch_operations` (src line 81,
spec §4.5) — permissionless, gated by block height: fails with
`EpochNotElapsed` below `last_epoch_height + epoch_period`; otherwise
instructs every custody delegate to distribute rewards, and when the
effective deposit rate is below the threshold, instructs the buffer
transfer scaled by `buffer_distribution_factor` and the ANC purchase of
the remainder scaled by `anc_purchase_factor`, omitting an instruction
whose factor is zero; `last_epoch_height` advances only in the
`UpdateEpochState` callback. -/
def executeEpochOperations (s : State) (env : Env) :
    Except Error (State × List Instruction) :=
  if env.block_height < s.epoch_state.last_executed_height + s.config.epoch_period
  then .error .EpochNotElapsed
  else
    let rewards := s.whitelist.map
      (fun p => Instruction.distributeRewards p.2.custody_contract)
    let buffer := s.epoch_state.interest_buffer
    let transfers :=
      if env.effective_deposit_rate < s.config.threshold_deposit_rate then
        let marketAmt := decMul s.config.buffer_distribution_factor buffer
        let remainder := buffer - marketAmt
        let ancAmt := decMul s.config.anc_purchase_factor remainder
        (if s.config.buffer_distribution_factor = 0 then []
         else [Instruction.transferBufferToMarket marketAmt]) ++
        (if s.config.anc_purchase_factor = 0 then []
         else [Instruction.purchaseAnc ancAmt])
      else []
    .ok (s, rewards ++ transfers)

/-- Modelled from the spec: the `UpdateEpochState` market-only callback
(src lines 82–84, spec §4.5 step 4) — finalizes the new deposit rate,
records the received interest buffer and advances `last_epoch_height`
to the current block. -/
def updateEpochState (s : State) (env : Env) (interest_buffer : Uint256) :
    Except Error (State × List Instruction) :=
  if env.sender ≠ s.config.market_contract then .error .Unauthorized
  else
    .ok ({ s with
             epoch_state :=
               { deposit_rate := env.effective_deposit_rate
                 last_executed_height := env.block_height
                 interest_buffer := interest_buffer } }, [])

/-- Modelled from the spec: the owner-only `Whitelist` command
(src lines 62–68, spec §4.1) — `Unauthorized` for a non-owner,
`AlreadyWhitelisted` when the asset already has an entry, otherwise
inserts the new entry. -/
def whitelistCmd (s : State) (env : Env) (name symbol : String)
    (collateral_token custody_contract : HumanAddr) (max_ltv : Decimal256) :
    Except Error (State × List Instruction) :=
  if env.sender ≠ s.config.owner_addr then .error .Unauthorized
  else
    match alGet s.whitelist collateral_token with
    | some _ => .error .AlreadyWhitelisted
    | none =>
        .ok ({ s with
                 whitelist := (collateral_token,
                   ⟨name, symbol, max_ltv, custody_contract⟩) :: s.whitelist }, [])

/-- Modelled from the spec: the owner-only `UpdateWhitelist` command
(src lines 70–74, spec §4.1) — partial update of `custody_contract`
and `max_ltv`, `NotWhitelisted` when the asset is absent; omitted
fields are left unchanged. -/
def updateWhitelistCmd (s : State) (env : Env) (collateral_token : HumanAddr)
    (custody_contract : Option HumanAddr) (max_ltv : Option Decimal256) :
    Except Error (State × List Instruction) :=
  if env.sender ≠ s.config.owner_addr then .error .Unauthorized
  else
    match alGet s.whitelist collateral_token with
    | none => .error .NotWhitelisted
    | some elem =>
        .ok ({ s with
                 whitelist := alSet s.whitelist collateral_token
                   { elem with
                     custody_contract := custody_contract.getD elem.custody_contract
                     max_ltv := max_ltv.getD elem.max_ltv } }, [])

/-- Modelled from the spec: the command dispatcher over `HandleMsg`
(src lines 43–102) — owner checks for the configuration commands,
the user and permissionless operations as modelled above. -/
def handle (s : State) (env : Env) : HandleMsg → Except Error (State × List Instruction)
  | .updateConfig m =>
      if env.sender ≠ s.config.owner_addr then .error .Unauthorized
      else .ok ({ s with config := applyUpdateConfig s.config m }, [])
  | .whitelist name symbol ct cc ltv => whitelistCmd s env name symbol ct cc ltv
  | .updateWhitelist ct cc ltv => updateWhitelistCmd s env ct cc ltv
  | .executeEpochOperations => executeEpochOperations s env
  | .updateEpochState buf => updateEpochState s env buf
  | .lockCollateral batch => lockCollateral s env.sender batch
  | .unlockCollateral batch => unlockCollateral s env batch
  | .liquidateCollateral borrower => liquidateCollateral s env borrower

/-- Modelled from the spec: the state created by `InitMsg`
(src lines 10–39, spec §6) — configuration from the message, epoch
state initialized with the target rate as default, empty registry and
ledger. -/
def initState (m : InitMsg) (height : Nat) : State :=
  { config :=
      { owner_addr := m.owner_addr
        oracle_contract := m.oracle_contract
        market_contract := m.market_contract
        liquidation_contract := m.liquidation_contract
        collector_contract := m.collector_contract
        threshold_deposit_rate := m.threshold_deposit_rate
        target_deposit_rate := m.target_deposit_rate
        buffer_distribution_factor := m.buffer_distribution_factor
        anc_purchase_factor := m.anc_purchase_factor
        stable_denom := m.stable_denom
        epoch_period := m.epoch_period
        price_timeframe := m.price_timeframe }
    epoch_state :=
      { deposit_rate := m.target_deposit_rate
        last_executed_height := height
        interest_buffer := 0 }
    whitelist := []
    collaterals := [] }

/-- States reachable from some initialization by a sequence of
successfully handled commands. -/
inductive Reachable : State → Prop where
  | init (m : InitMsg) (height : Nat) : Reachable (initState m height)
  | step (s s2 : State) (env : Env) (msg : HandleMsg) (out : List Instruction) :
      Reachable s → handle s env msg = .ok (s2, out) → Reachable s2

/-- The spec's per-position contribution to the borrow limit:
`amount × price × max_ltv`, with the position's whitelist entry
supplying `max_ltv` (0 when the asset has no entry). -/
def positionValue (wl : List (HumanAddr × WhitelistElem))
    (oracle : HumanAddr → Decimal256 × Nat) (p : HumanAddr × Uint256) : Uint256 :=
  match alGet wl p.1 with
  | none => 0
  | some elem => decMul elem.max_ltv (decMul (oracle p.1).1 p.2)

/-- The spec's aggregate borrow limit: the saturating sum of the
per-position contributions. -/
def borrowLimitSpec (wl : List (HumanAddr × WhitelistElem))
    (oracle : HumanAddr → Decimal256 × Nat) (toks : TokensHuman) : Uint256 :=
  toks.foldr (fun p acc => satAdd (positionValue wl oracle p) acc) 0

theorem satAdd_left_comm (a b c : Nat) :
    satAdd a (satAdd b c) = satAdd b (satAdd a c) := by
  simp only [satAdd]
  omega

theorem borrowLimitSpec_perm (wl : List (HumanAddr × WhitelistElem))
    (oracle : HumanAddr → Decimal256 × Nat) {l l2 : TokensHuman}
    (h : l.Perm l2) :
    borrowLimitSpec wl oracle l = borrowLimitSpec wl oracle l2 := by
  induction h with
  | nil => rfl
  | cons x _ ih => simp only [borrowLimitSpec, List.foldr_cons] at ih ⊢; rw [ih]
  | swap x y l =>
      simp only [borrowLimitSpec, List.foldr_cons]
      exact (satAdd_left_comm _ _ _)
  | trans _ _ ih1 ih2 => exact ih1.trans ih2

theorem borrowLimitToks_ok_iff (cfg : Config) (wl : List (HumanAddr × WhitelistElem))
    (oracle : HumanAddr → Decimal256 × Nat) (bt : Nat) (toks : TokensHuman)
    (v : Uint256) :
    borrowLimitToks cfg wl oracle bt toks = .ok v ↔
      ((∀ p ∈ toks, (alGet wl p.1).isSome ∧
          priceFresh bt (oracle p.1).2 cfg.price_timeframe) ∧
        v = borrowLimitSpec wl oracle toks) := by
  induction toks generalizing v with
  | nil =>
      simp [borrowLimitToks, borrowLimitSpec]
      exact comm
  | cons p rest ih =>
      obtain ⟨asset, amount⟩ := p
      simp only [borrowLimitToks]
      cases hwl : alGet wl asset with
      | none =>
          simp [borrowLimitSpec, hwl]
      | some elem =>
          by_cases hf : priceFresh bt (oracle asset).2 cfg.price_timeframe
          · simp only [hwl, hf, if_true]
            cases hrest : borrowLimitToks cfg wl oracle bt rest with
            | error e =>
                have hnone : ∀ w, borrowLimitToks cfg wl oracle bt rest ≠ .ok w := by
                  simp [hrest]
                constructor
                · intro hcontra; cases hcontra
                · rintro ⟨hall, hv⟩
                  have := (ih (borrowLimitSpec wl oracle rest)).mpr
                    ⟨fun q hq => hall q (List.mem_cons_of_mem _ hq), rfl⟩
                  exact absurd this (hnone _)
            | ok acc =>
                have hacc := (ih acc).mp hrest
                constructor
                · intro hok
                  cases hok
                  refine ⟨?_, ?_⟩
                  · intro q hq
                    rcases List.mem_cons.mp hq with hq | hq
                    · subst hq; exact ⟨by simp [hwl], hf⟩
                    · exact hacc.1 q hq
                  · rw [hacc.2]
                    simp [borrowLimitSpec, positionValue, hwl]
                · rintro ⟨hall, hv⟩
                  subst hv
                  simp [borrowLimitSpec, positionValue, hwl, hacc.2]
          · constructor
            · intro hcontra
              simp only [hf, if_false] at hcontra
              cases hcontra
            · rintro ⟨hall, -⟩
              exact absurd (hall (asset, amount) (List.mem_cons_self _ _)).2 hf

theorem borrowLimitToks_stale (cfg : Config) (wl : List (HumanAddr × WhitelistElem))
    (oracle : HumanAddr → Decimal256 × Nat) (bt : Nat) (toks : TokensHuman)
    (hwl : ∀ p ∈ toks, (alGet wl p.1).isSome)
    (hstale : ∃ p ∈ toks, ¬ priceFresh bt (oracle p.1).2 cfg.price_timeframe) :
    borrowLimitToks cfg wl oracle bt toks = .error .StalePrice := by
  induction toks with
  | nil => obtain ⟨p, hp, _⟩ := hstale; cases hp
  | cons q rest ih =>
      obtain ⟨asset, amount⟩ := q
      have hq := hwl (asset, amount) (List.mem_cons_self _ _)
      obtain ⟨elem, helem⟩ := Option.isSome_iff_exists.mp hq
      simp only [borrowLimitToks, helem]
      by_cases hf : priceFresh bt (oracle asset).2 cfg.price_timeframe
      · simp only [hf, if_true]
        have hrest : ∃ p ∈ rest, ¬ priceFresh bt (oracle p.1).2 cfg.price_timeframe := by
          obtain ⟨p, hp, hps⟩ := hstale
          rcases List.mem_cons.mp hp with hp | hp
          · subst hp; exact absurd hf hps
          · exact ⟨p, hp, hps⟩
        rw [ih (fun p hp => hwl p (List.mem_cons_of_mem _ hp)) hrest]
      · simp [hf]

/-- The claim that every `Config` attribute can be mutated through the
`UpdateConfig` command: for each of the twelve attributes there are a
configuration and a message whose application changes that attribute. -/
def configAllMutableViaUpdateConfig : Prop :=
  (∃ c m, (applyUpdateConfig c m).owner_addr ≠ c.owner_addr) ∧
  (∃ c m, (applyUpdateConfig c m).oracle_contract ≠ c.oracle_contract) ∧
  (∃ c m, (applyUpdateConfig c m).market_contract ≠ c.market_contract) ∧
  (∃ c m, (applyUpdateConfig c m).liquidation_contract ≠ c.liquidation_contract) ∧
  (∃ c m, (applyUpdateConfig c m).collector_contract ≠ c.collector_contract) ∧
  (∃ c m, (applyUpdateConfig c m).stable_denom ≠ c.stable_denom) ∧
  (∃ c m, (applyUpdateConfig c m).epoch_period ≠ c.epoch_period) ∧
  (∃ c m, (applyUpdateConfig c m).threshold_deposit_rate ≠ c.threshold_deposit_rate) ∧
  (∃ c m, (applyUpdateConfig c m).target_deposit_rate ≠ c.target_deposit_rate) ∧
  (∃ c m,
    (applyUpdateConfig c m).buffer_distribution_factor ≠ c.buffer_distribution_factor) ∧
  (∃ c m, (applyUpdateConfig c m).anc_purchase_factor ≠ c.anc_purchase_factor) ∧
  (∃ c m, (applyUpdateConfig c m).price_timeframe ≠ c.price_timeframe)

/-- C1 fails on the code: `HandleMsg::UpdateConfig` (src lines 49–59)
carries no field for the market address (nor for the collector address
or the stable denomination), so no `UpdateConfig` message can change
`Config.market_contract` — the claim that every `Config` attribute has
a corresponding optional field is false. -/
theorem C1_update_config_counterexample : ¬ configAllMutableViaUpdateConfig := by
  rintro ⟨-, -, ⟨c, m, hne⟩, -⟩
  exact hne rfl

/-- C1 (amended): the owner-only `UpdateConfig` command carries optional
fields exactly for owner, oracle address, liquidation address, the four
rate/factor fields, the epoch period and the price timeframe, and each
such field overwrites its `Config` attribute with any chosen value;
the market address, collector address and stable denomination have no
corresponding field and are never changed by `UpdateConfig`. -/
theorem C1_update_config_amended :
    (∀ c v, (applyUpdateConfig c
      ⟨some v, none, none, none, none, none, none, none, none⟩).owner_addr = v) ∧
    (∀ c v, (applyUpdateConfig c
      ⟨none, some v, none, none, none, none, none, none, none⟩).oracle_contract = v) ∧
    (∀ c v, (applyUpdateConfig c
      ⟨none, none, some v, none, none, none, none, none, none⟩).liquidation_contract = v) ∧
    (∀ c v, (applyUpdateConfig c
      ⟨none, none, none, some v, none, none, none, none, none⟩).threshold_deposit_rate = v) ∧
    (∀ c v, (applyUpdateConfig c
      ⟨none, none, none, none, some v, none, none, none, none⟩).target_deposit_rate = v) ∧
    (∀ c v, (applyUpdateConfig c
      ⟨none, none, none, none, none, some v, none, none, none⟩).buffer_distribution_factor = v) ∧
    (∀ c v, (applyUpdateConfig c
      ⟨none, none, none, none, none, none, some v, none, none⟩).anc_purchase_factor = v) ∧
    (∀ c v, (applyUpdateConfig c
      ⟨none, none, none, none, none, none, none, some v, none⟩).epoch_period = v) ∧
    (∀ c v, (applyUpdateConfig c
      ⟨none, none, none, none, none, none, none, none, some v⟩).price_timeframe = v) ∧
    (∀ c m, (applyUpdateConfig c m).market_contract = c.market_contract) ∧
    (∀ c m, (applyUpdateConfig c m).collector_contract = c.collector_contract) ∧
    (∀ c m, (applyUpdateConfig c m).stable_denom = c.stable_denom) :=
  ⟨fun _ _ => rfl, fun _ _ => rfl, fun _ _ => rfl, fun _ _ => rfl,
   fun _ _ => rfl, fun _ _ => rfl, fun _ _ => rfl, fun _ _ => rfl,
   fun _ _ => rfl, fun _ _ => rfl, fun _ _ => rfl, fun _ _ => rfl⟩

/-- C2: `Migrate` sets exactly `target_deposit_rate` and
`threshold_deposit_rate` to the supplied values and leaves every other
persisted field — the remaining `Config` attributes, the epoch state,
the whitelist entries and the collateral positions — unchanged. -/
theorem C2_migrate_frame (s : State) (m : MigrateMsg) :
    (migrate s m).config.target_deposit_rate = m.target_deposit_rate ∧
    (migrate s m).config.threshold_deposit_rate = m.threshold_deposit_rate ∧
    (migrate s m).config.owner_addr = s.config.owner_addr ∧
    (migrate s m).config.oracle_contract = s.config.oracle_contract ∧
    (migrate s m).config.market_contract = s.config.market_contract ∧
    (migrate s m).config.liquidation_contract = s.config.liquidation_contract ∧
    (migrate s m).config.collector_contract = s.config.collector_contract ∧
    (migrate s m).config.buffer_distribution_factor
      = s.config.buffer_distribution_factor ∧
    (migrate s m).config.anc_purchase_factor = s.config.anc_purchase_factor ∧
    (migrate s m).config.stable_denom = s.config.stable_denom ∧
    (migrate s m).config.epoch_period = s.config.epoch_period ∧
    (migrate s m).config.price_timeframe = s.config.price_timeframe ∧
    (migrate s m).epoch_state = s.epoch_state ∧
    (migrate s m).whitelist = s.whitelist ∧
    (migrate s m).collaterals = s.collaterals :=
  ⟨rfl, rfl, rfl, rfl, rfl, rfl, rfl, rfl, rfl, rfl, rfl, rfl, rfl, rfl, rfl⟩

theorem alGet_alSet_self {α : Type} (l : List (HumanAddr × α)) (k : HumanAddr)
    (v : α) : alGet (alSet l k v) k = some v := by
  induction l with
  | nil => simp [alSet, alGet]
  | cons p rest ih =>
      obtain ⟨k0, w⟩ := p
      by_cases h : k = k0
      · subst h; simp [alSet, alGet]
      · simp [alSet, alGet, h, ih]

theorem alGet_alSet_ne {α : Type} (l : List (HumanAddr × α)) (k k2 : HumanAddr)
    (v : α) (h : k2 ≠ k) : alGet (alSet l k v) k2 = alGet l k2 := by
  induction l with
  | nil => simp [alSet, alGet, h]
  | cons p rest ih =>
      obtain ⟨k0, w⟩ := p
      by_cases hk : k = k0
      · subst hk; simp [alSet, alGet, h]
      · by_cases hk2 : k2 = k0
        · subst hk2; simp [alSet, alGet, hk]
        · simp [alSet, alGet, hk, hk2, ih]

/-- Concrete sample data used by the witness theorems. -/
def wAsset : HumanAddr := "basset"

def wAsset2 : HumanAddr := "bluna"

def wBorrower : HumanAddr := "alice"

def wElem : WhitelistElem :=
  { name := "Bonded asset", symbol := "BASSET",
    max_ltv := 5 * 10 ^ 17, custody_contract := "custody1" }

def wElem2 : WhitelistElem :=
  { name := "Bonded luna", symbol := "BLUNA",
    max_ltv := 6 * 10 ^ 17, custody_contract := "custody2" }

def wConfig : Config :=
  { owner_addr := "owner", oracle_contract := "oracle",
    market_contract := "market", liquidation_contract := "liquidation",
    collector_contract := "collector",
    threshold_deposit_rate := 10 ^ 16, target_deposit_rate := 2 * 10 ^ 16,
    buffer_distribution_factor := 10 ^ 17, anc_purchase_factor := 10 ^ 17,
    stable_denom := "uusd", epoch_period := 100, price_timeframe := 60 }

def wEpoch : EpochState :=
  { deposit_rate := 10 ^ 16, last_executed_height := 0, interest_buffer := 1000 }

def wState : State :=
  { config := wConfig, epoch_state := wEpoch,
    whitelist := [(wAsset, wElem), (wAsset2, wElem2)],
    collaterals := [(wBorrower, [(wAsset, 100)])] }

/-- Sample oracle: every asset priced at 10 stable units, last updated
at block time 50. -/
def wOracle : HumanAddr → Decimal256 × Nat := fun _ => (10 * decFrac, 50)

def wEnv : Env :=
  { sender := wBorrower, block_height := 100, block_time := 60,
    oracle := wOracle, debt_of := fun _ => 600,
    effective_deposit_rate := 10 ^ 15, liq_plan := fun _ toks => toks }

/-- C3: whenever the borrow limit recomputed after tentatively applying
all requested decreases is below the borrower's outstanding debt
(reported by the market collaborator), `unlock_collateral` fails with
`BorrowLimitExceeded` and never succeeds, so no position of the batch
is mutated. -/
theorem C3_unlock_borrow_limit_exceeded (s : State) (env : Env)
    (batch toks2 : TokensHuman) (limit : Uint256)
    (h1 : unlockToks (positionsOf s env.sender) batch = .ok toks2)
    (h2 : borrowLimitToks s.config s.whitelist env.oracle env.block_time toks2
            = .ok limit)
    (h3 : limit < env.debt_of env.sender) :
    unlockCollateral s env batch = .error .BorrowLimitExceeded ∧
    ∀ out, unlockCollateral s env batch ≠ .ok out := by
  have hmain : unlockCollateral s env batch = .error .BorrowLimitExceeded := by
    unfold unlockCollateral
    rw [h1]
    dsimp only
    rw [h2]
    dsimp only
    rw [if_pos h3]
  exact ⟨hmain, fun out => by simp [hmain]⟩

theorem C3_unlock_witness :
    unlockCollateral wState wEnv [(wAsset, 1)] = .error .BorrowLimitExceeded :=
  (C3_unlock_borrow_limit_exceeded wState wEnv [(wAsset, 1)] [(wAsset, 99)] 495
    (by decide) (by decide) (by decide)).1

/-- C6: `execute_epoch_operations` fails with `EpochNotElapsed` at any
block height below `last_epoch_height + epoch_period`, and succeeds at
exactly `last_epoch_height + epoch_period`. -/
theorem C6_epoch_gate (s : State) (env : Env) :
    (env.block_height < s.epoch_state.last_executed_height + s.config.epoch_period →
       executeEpochOperations s env = .error .EpochNotElapsed) ∧
    (env.block_height = s.epoch_state.last_executed_height + s.config.epoch_period →
       ∃ out, executeEpochOperations s env = .ok out) := by
  constructor
  · intro h
    unfold executeEpochOperations
    rw [if_pos h]
  · intro h
    unfold executeEpochOperations
    rw [if_neg (by omega)]
    exact ⟨_, rfl⟩

theorem C6_epoch_witness :
    executeEpochOperations wState { wEnv with block_height := 50 }
        = .error .EpochNotElapsed ∧
    ∃ out, executeEpochOperations wState wEnv = .ok out :=
  ⟨(C6_epoch_gate wState { wEnv with block_height := 50 }).1 (by decide),
   (C6_epoch_gate wState wEnv).2 (by decide)⟩

/-- C7: for every borrower and caller, when the outstanding debt does
not exceed the borrow limit, `liquidate_collateral` fails with
`Solvent` and never succeeds — a rejected state transition mutating
nothing. -/
theorem C7_liquidate_solvent (s : State) (env : Env) (borrower : HumanAddr)
    (limit : Uint256)
    (hlim : borrowLimitToks s.config s.whitelist env.oracle env.block_time
              (positionsOf s borrower) = .ok limit)
    (hdebt : env.debt_of borrower ≤ limit) :
    liquidateCollateral s env borrower = .error .Solvent ∧
    ∀ out, liquidateCollateral s env borrower ≠ .ok out := by
  have hmain : liquidateCollateral s env borrower = .error .Solvent := by
    unfold liquidateCollateral
    rw [hlim]
    simp only [if_pos hdebt]
  exact ⟨hmain, fun out => by simp [hmain]⟩

theorem C7_liquidate_witness :
    liquidateCollateral wState { wEnv with debt_of := fun _ => 300 } wBorrower
      = .error .Solvent :=
  (C7_liquidate_solvent wState { wEnv with debt_of := fun _ => 300 } wBorrower 500
    (by decide) (by decide)).1

/-- C4: for every borrower whose positions are all whitelisted, the
`BorrowLimit` query is the saturating sum over the borrower's collateral
positions of `amount × oracle price × max_ltv` whenever every required
price's timestamp is within `price_timeframe` blocks of the evaluation
time, and fails with `StalePrice` whenever some required price's
timestamp is outside that window; being a pure function of the state it
mutates nothing. -/
theorem C4_borrow_limit_formula (s : State) (env_time : Nat)
    (oracle : HumanAddr → Decimal256 × Nat) (borrower : HumanAddr)
    (block_time : Option Nat)
    (hwl : ∀ p ∈ positionsOf s borrower, (alGet s.whitelist p.1).isSome) :
    ((∀ p ∈ positionsOf s borrower,
        priceFresh (block_time.getD env_time) (oracle p.1).2
          s.config.price_timeframe) →
      queryBorrowLimit s env_time oracle borrower block_time
        = .ok (borrowLimitSpec s.whitelist oracle (positionsOf s borrower))) ∧
    ((∃ p ∈ positionsOf s borrower,
        ¬ priceFresh (block_time.getD env_time) (oracle p.1).2
            s.config.price_timeframe) →
      queryBorrowLimit s env_time oracle borrower block_time
        = .error .StalePrice) := by
  constructor
  · intro hfresh
    exact (borrowLimitToks_ok_iff s.config s.whitelist oracle
      (block_time.getD env_time) (positionsOf s borrower) _).mpr
      ⟨fun p hp => ⟨hwl p hp, hfresh p hp⟩, rfl⟩
  · intro hstale
    exact borrowLimitToks_stale s.config s.whitelist oracle
      (block_time.getD env_time) (positionsOf s borrower) hwl hstale

theorem C4_borrow_limit_witness :
    queryBorrowLimit wState 60 wOracle wBorrower none
        = .ok (borrowLimitSpec wState.whitelist wOracle
                 (positionsOf wState wBorrower)) ∧
    queryBorrowLimit wState 200 wOracle wBorrower none = .error .StalePrice :=
  ⟨(C4_borrow_limit_formula wState 60 wOracle wBorrower none (by decide)).1
     (by decide),
   (C4_borrow_limit_formula wState 200 wOracle wBorrower none (by decide)).2
     ⟨(wAsset, 100), by decide, by decide⟩⟩

/-- C8: the borrow-limit computation is order-independent over the
borrower's position set — on any permutation of the position list it
returns the identical aggregate limit. -/
theorem C8_borrow_limit_perm (cfg : Config) (wl : List (HumanAddr × WhitelistElem))
    (oracle : HumanAddr → Decimal256 × Nat) (bt : Nat)
    (l l2 : TokensHuman) (v : Uint256) (hperm : l.Perm l2)
    (hok : borrowLimitToks cfg wl oracle bt l = .ok v) :
    borrowLimitToks cfg wl oracle bt l2 = .ok v := by
  obtain ⟨hall, hv⟩ := (borrowLimitToks_ok_iff cfg wl oracle bt l v).mp hok
  exact (borrowLimitToks_ok_iff cfg wl oracle bt l2 v).mpr
    ⟨fun p hp => hall p (hperm.mem_iff.mpr hp),
     hv.trans (borrowLimitSpec_perm wl oracle hperm)⟩

theorem C8_borrow_limit_perm_witness :
    borrowLimitToks wConfig wState.whitelist wOracle 60
        [(wAsset2, 200), (wAsset, 100)] = .ok 1700 :=
  C8_borrow_limit_perm wConfig wState.whitelist wOracle 60
    [(wAsset, 100), (wAsset2, 200)] [(wAsset2, 200), (wAsset, 100)] 1700
    (List.Perm.swap (wAsset2, 200) (wAsset, 100) [])
    (by decide)

theorem borrowLimitSpec_le_max (wl : List (HumanAddr × WhitelistElem))
    (oracle : HumanAddr → Decimal256 × Nat) (toks : TokensHuman) :
    borrowLimitSpec wl oracle toks ≤ maxU256 := by
  cases toks with
  | nil => exact Nat.zero_le _
  | cons p rest =>
      simp only [borrowLimitSpec, List.foldr_cons, satAdd]
      exact Nat.min_le_right _ _

/-- Sample initialization message used by the witness theorems. -/
def wInit : InitMsg :=
  { owner_addr := "owner", oracle_contract := "oracle",
    market_contract := "market", liquidation_contract := "liquidation",
    collector_contract := "collector", stable_denom := "uusd",
    epoch_period := 100, threshold_deposit_rate := 10 ^ 16,
    target_deposit_rate := 2 * 10 ^ 16,
    buffer_distribution_factor := 10 ^ 17, anc_purchase_factor := 10 ^ 17,
    price_timeframe := 60 }

/-- C9: on every reachable state, a successful `BorrowLimit` query
returns a value that is non-negative as an integer and representable
as an unsigned 256-bit integer — no sequence of handled operations can
make the computed borrow limit negative. -/
theorem C9_borrow_limit_nonneg (s : State) (hreach : Reachable s)
    (env_time : Nat) (oracle : HumanAddr → Decimal256 × Nat)
    (borrower : HumanAddr) (block_time : Option Nat) (v : Uint256)
    (h : queryBorrowLimit s env_time oracle borrower block_time = .ok v) :
    (0 : Int) ≤ (v : Int) ∧ v ≤ maxU256 := by
  have hv := (borrowLimitToks_ok_iff s.config s.whitelist oracle
    (block_time.getD env_time) (positionsOf s borrower) v).mp h
  exact ⟨Int.natCast_nonneg v, hv.2 ▸ borrowLimitSpec_le_max _ _ _⟩

theorem C9_borrow_limit_nonneg_witness :
    (0 : Int) ≤ ((0 : Uint256) : Int) ∧ (0 : Uint256) ≤ maxU256 :=
  C9_borrow_limit_nonneg (initState wInit 0) (Reachable.init wInit 0)
    60 wOracle wBorrower none 0 (by decide)

/-- Total amount a batch requests for one asset (the amounts of all its
pairs naming that asset). -/
def batchAmount (batch : TokensHuman) (asset : HumanAddr) : Uint256 :=
  (batch.map (fun p => if p.1 = asset then p.2 else 0)).sum

theorem toksAdd_locked (toks : TokensHuman) (asset : HumanAddr) (amount : Uint256)
    (target : HumanAddr) :
    ((toksAdd toks asset amount).map
        (fun p => if p.1 = target then p.2 else 0)).sum
      = (toks.map (fun p => if p.1 = target then p.2 else 0)).sum
          + (if asset = target then amount else 0) := by
  induction toks with
  | nil => simp [toksAdd]
  | cons q rest ih =>
      obtain ⟨k, v⟩ := q
      simp only [toksAdd]
      by_cases hk : asset = k
      · rw [if_pos hk]
        subst hk
        simp only [List.map_cons, List.sum_cons]
        split_ifs <;> ring
      · rw [if_neg hk]
        simp only [List.map_cons, List.sum_cons, ih]
        split_ifs <;> ring

theorem lockCollateral_ok_spec (s : State) (borrower : HumanAddr)
    (batch : TokensHuman) (s2 : State) (instrs : List Instruction)
    (h : lockCollateral s borrower batch = .ok (s2, instrs)) :
    s2.config = s.config ∧ s2.epoch_state = s.epoch_state ∧
    s2.whitelist = s.whitelist ∧
    (∀ b, b ≠ borrower → alGet s2.collaterals b = alGet s.collaterals b) ∧
    (∀ asset, lockedAmount s2 borrower asset
      = lockedAmount s borrower asset + batchAmount batch asset) := by
  induction batch generalizing s2 instrs with
  | nil =>
      cases h
      exact ⟨rfl, rfl, rfl, fun _ _ => rfl, fun asset => by simp [batchAmount]⟩
  | cons pair rest ih =>
      simp only [lockCollateral] at h
      cases hval : validateLockPair s.whitelist pair with
      | error e => rw [hval] at h; cases h
      | ok elem =>
          rw [hval] at h
          cases hrest : lockCollateral s borrower rest with
          | error e => rw [hrest] at h; cases h
          | ok out =>
              obtain ⟨s1, instrs1⟩ := out
              rw [hrest] at h
              cases h
              obtain ⟨hc, he, hw, hother, hamt⟩ := ih s1 instrs1 hrest
              refine ⟨hc, he, hw, ?_, ?_⟩
              · intro b hb
                rw [alGet_alSet_ne _ _ _ _ hb]
                exact hother b hb
              · intro asset
                have hspec := hamt asset
                simp only [lockedAmount, positionsOf] at hspec ⊢
                rw [alGet_alSet_self]
                simp only [Option.getD_some]
                rw [toksAdd_locked, hspec]
                simp only [batchAmount, List.map_cons, List.sum_cons]
                split_ifs <;> ring

theorem lockCollateral_ok_of_valid (s : State) (borrower : HumanAddr)
    (batch : TokensHuman)
    (hvalid : ∀ p ∈ batch, (alGet s.whitelist p.1).isSome ∧ p.2 ≠ 0) :
    ∃ s2 instrs, lockCollateral s borrower batch = .ok (s2, instrs) := by
  induction batch with
  | nil => exact ⟨s, [], rfl⟩
  | cons pair rest ih =>
      obtain ⟨hwl, hnz⟩ := hvalid pair (List.mem_cons_self _ _)
      obtain ⟨elem, helem⟩ := Option.isSome_iff_exists.mp hwl
      obtain ⟨s1, instrs1, hrest⟩ :=
        ih (fun p hp => hvalid p (List.mem_cons_of_mem _ hp))
      have hval : validateLockPair s.whitelist pair = .ok elem := by
        simp [validateLockPair, helem, hnz]
      refine ⟨{ s1 with collaterals := alSet s1.collaterals borrower (toksAdd (positionsOf s1 borrower) pair.1 pair.2) }, .custodyLockCollateral elem.custody_contract borrower pair.2 :: instrs1, ?_⟩
      simp only [lockCollateral, hval, hrest]

theorem lockCollateral_error_of_invalid (s : State) (borrower : HumanAddr)
    (batch : TokensHuman)
    (hbad : ∃ p ∈ batch, alGet s.whitelist p.1 = none ∨ p.2 = 0) :
    lockCollateral s borrower batch = .error .NotWhitelisted ∨
    lockCollateral s borrower batch = .error .InvalidAmount := by
  induction batch with
  | nil => obtain ⟨p, hp, -⟩ := hbad; cases hp
  | cons pair rest ih =>
      cases hwl : alGet s.whitelist pair.1 with
      | none =>
          refine Or.inl ?_
          simp [lockCollateral, validateLockPair, hwl]
      | some elem =>
          by_cases hz : pair.2 = 0
          · refine Or.inr ?_
            simp [lockCollateral, validateLockPair, hwl, hz]
          · have hval : validateLockPair s.whitelist pair = .ok elem := by
              simp [validateLockPair, hwl, hz]
            have hrest : ∃ p ∈ rest, alGet s.whitelist p.1 = none ∨ p.2 = 0 := by
              obtain ⟨p, hp, hps⟩ := hbad
              rcases List.mem_cons.mp hp with hp | hp
              · subst hp
                rcases hps with hps | hps
                · rw [hwl] at hps; cases hps
                · exact absurd hps hz
              · exact ⟨p, hp, hps⟩
            rcases ih hrest with herr | herr
            · exact Or.inl (by simp only [lockCollateral, hval, herr])
            · exact Or.inr (by simp only [lockCollateral, hval, herr])

theorem lockCollateral_notWhitelisted_cause (s : State) (borrower : HumanAddr)
    (batch : TokensHuman)
    (h : lockCollateral s borrower batch = .error .NotWhitelisted) :
    ∃ p ∈ batch, alGet s.whitelist p.1 = none := by
  induction batch with
  | nil => cases h
  | cons pair rest ih =>
      cases hwl : alGet s.whitelist pair.1 with
      | none => exact ⟨pair, List.mem_cons_self _ _, hwl⟩
      | some elem =>
          by_cases hz : pair.2 = 0
          · have hia : lockCollateral s borrower (pair :: rest)
                = .error .InvalidAmount := by
              simp [lockCollateral, validateLockPair, hwl, hz]
            rw [hia] at h
            simp at h
          · have hval : validateLockPair s.whitelist pair = .ok elem := by
              simp [validateLockPair, hwl, hz]
            simp only [lockCollateral, hval] at h
            cases hrest : lockCollateral s borrower rest with
            | error e =>
                simp only [hrest] at h
                injection h with h
                subst h
                obtain ⟨p, hp, hnone⟩ := ih hrest
                exact ⟨p, List.mem_cons_of_mem _ hp, hnone⟩
            | ok out =>
                obtain ⟨s1, instrs1⟩ := out
                simp only [hrest] at h
                cases h

theorem lockCollateral_invalidAmount_cause (s : State) (borrower : HumanAddr)
    (batch : TokensHuman)
    (h : lockCollateral s borrower batch = .error .InvalidAmount) :
    ∃ p ∈ batch, (alGet s.whitelist p.1).isSome ∧ p.2 = 0 := by
  induction batch with
  | nil => cases h
  | cons pair rest ih =>
      cases hwl : alGet s.whitelist pair.1 with
      | none =>
          have hnw : lockCollateral s borrower (pair :: rest)
              = .error .NotWhitelisted := by
            simp [lockCollateral, validateLockPair, hwl]
          rw [hnw] at h
          simp at h
      | some elem =>
          by_cases hz : pair.2 = 0
          · exact ⟨pair, List.mem_cons_self _ _, by simp [hwl], hz⟩
          · have hval : validateLockPair s.whitelist pair = .ok elem := by
              simp [validateLockPair, hwl, hz]
            simp only [lockCollateral, hval] at h
            cases hrest : lockCollateral s borrower rest with
            | error e =>
                simp only [hrest] at h
                injection h with h
                subst h
                obtain ⟨p, hp, hsome, hzero⟩ := ih hrest
                exact ⟨p, List.mem_cons_of_mem _ hp, hsome, hzero⟩
            | ok out =>
                obtain ⟨s1, instrs1⟩ := out
                simp only [hrest] at h
                cases h

/-- C5: each `lock_collateral` pair fails with `NotWhitelisted` exactly
when its asset has no whitelist entry and with `InvalidAmount` exactly
when it is whitelisted but its amount is zero — at the pair level the
validator maps each defect to its error, and at the batch level the
batch error is `NotWhitelisted` only when some pair's asset is
unlisted and `InvalidAmount` only when some whitelisted pair's amount
is zero; a defective batch never yields a new state, and a fully valid
batch succeeds, each listed position growing by exactly the batch's
amount for that asset, everything else unchanged. -/
theorem C5_lock_collateral_batch (s : State) (borrower : HumanAddr)
    (batch : TokensHuman) :
    (∀ p : HumanAddr × Uint256, alGet s.whitelist p.1 = none →
       validateLockPair s.whitelist p = .error .NotWhitelisted) ∧
    (∀ p : HumanAddr × Uint256, (alGet s.whitelist p.1).isSome → p.2 = 0 →
       validateLockPair s.whitelist p = .error .InvalidAmount) ∧
    ((∃ p ∈ batch, alGet s.whitelist p.1 = none ∨ p.2 = 0) →
       (lockCollateral s borrower batch = .error .NotWhitelisted ∨
        lockCollateral s borrower batch = .error .InvalidAmount) ∧
       (lockCollateral s borrower batch = .error .NotWhitelisted →
          ∃ p ∈ batch, alGet s.whitelist p.1 = none) ∧
       (lockCollateral s borrower batch = .error .InvalidAmount →
          ∃ p ∈ batch, (alGet s.whitelist p.1).isSome ∧ p.2 = 0) ∧
       ∀ out, lockCollateral s borrower batch ≠ .ok out) ∧
    ((∀ p ∈ batch, (alGet s.whitelist p.1).isSome ∧ p.2 ≠ 0) →
       ∃ s2 instrs, lockCollateral s borrower batch = .ok (s2, instrs) ∧
         s2.config = s.config ∧ s2.epoch_state = s.epoch_state ∧
         s2.whitelist = s.whitelist ∧
         (∀ b, b ≠ borrower → alGet s2.collaterals b = alGet s.collaterals b) ∧
         (∀ asset, lockedAmount s2 borrower asset
            = lockedAmount s borrower asset + batchAmount batch asset)) := by
  refine ⟨?_, ?_, ?_, ?_⟩
  · intro p hp
    simp [validateLockPair, hp]
  · intro p hsome hz
    obtain ⟨elem, helem⟩ := Option.isSome_iff_exists.mp hsome
    simp [validateLockPair, helem, hz]
  · intro hbad
    have herr := lockCollateral_error_of_invalid s borrower batch hbad
    refine ⟨herr,
      lockCollateral_notWhitelisted_cause s borrower batch,
      lockCollateral_invalidAmount_cause s borrower batch,
      fun out hok => ?_⟩
    rcases herr with herr | herr <;> rw [herr] at hok <;> cases hok
  · intro hvalid
    obtain ⟨s2, instrs, hok⟩ := lockCollateral_ok_of_valid s borrower batch hvalid
    obtain ⟨hc, he, hw, hother, hamt⟩ :=
      lockCollateral_ok_spec s borrower batch s2 instrs hok
    exact ⟨s2, instrs, hok, hc, he, hw, hother, hamt⟩

/-- An address with no whitelist entry, used by the witness theorems. -/
def wAssetUnlisted : HumanAddr := "unknown"

theorem C5_lock_collateral_witness :
    lockCollateral wState wBorrower [(wAsset, 0)] = .error .InvalidAmount ∧
    lockCollateral wState wBorrower [(wAssetUnlisted, 5)]
      = .error .NotWhitelisted ∧
    (∃ s2 instrs,
      lockCollateral wState wBorrower [(wAsset, 7)] = .ok (s2, instrs) ∧
      s2.config = wState.config ∧ s2.epoch_state = wState.epoch_state ∧
      s2.whitelist = wState.whitelist ∧
      (∀ b, b ≠ wBorrower →
        alGet s2.collaterals b = alGet wState.collaterals b) ∧
      (∀ asset, lockedAmount s2 wBorrower asset
        = lockedAmount wState wBorrower asset
            + batchAmount [(wAsset, 7)] asset)) := by
  refine ⟨?_, ?_, ?_⟩
  · have h := (C5_lock_collateral_batch wState wBorrower [(wAsset, 0)]).2.2.1
      ⟨(wAsset, 0), List.mem_cons_self _ _, Or.inr rfl⟩
    rcases h.1 with hnw | hia
    · exfalso
      obtain ⟨p, hp, hnone⟩ := h.2.1 hnw
      have hpe : p = (wAsset, 0) := by simpa using hp
      subst hpe
      exact absurd hnone (by decide)
    · exact hia
  · have h := (C5_lock_collateral_batch wState wBorrower
        [(wAssetUnlisted, 5)]).2.2.1
      ⟨(wAssetUnlisted, 5), List.mem_cons_self _ _, Or.inl (by decide)⟩
    rcases h.1 with hnw | hia
    · exact hnw
    · exfalso
      obtain ⟨p, hp, hsome, hzero⟩ := h.2.2.1 hia
      have hpe : p = (wAssetUnlisted, 5) := by simpa using hp
      subst hpe
      exact absurd hsome (by decide)
  · exact (C5_lock_collateral_batch wState wBorrower [(wAsset, 7)]).2.2.2
      (by decide)

/-- C10: once a whitelist entry exists, no successfully handled command
changes its name or symbol — `UpdateWhitelist` carries only optional
custody-contract and max-LTV fields, `Whitelist` refuses an existing
asset, and every other command leaves the registry untouched. -/
theorem C10_whitelist_name_symbol_immutable (s : State) (env : Env)
    (msg : HandleMsg) (s2 : State) (out : List Instruction)
    (h : handle s env msg = .ok (s2, out)) (asset : HumanAddr)
    (elem : WhitelistElem) (helem : alGet s.whitelist asset = some elem) :
    ∃ elem2, alGet s2.whitelist asset = some elem2 ∧
      elem2.name = elem.name ∧ elem2.symbol = elem.symbol := by
  cases msg with
  | updateConfig m =>
      simp only [handle] at h
      by_cases hs : env.sender ≠ s.config.owner_addr
      · rw [if_pos hs] at h; cases h
      · rw [if_neg hs] at h
        cases h
        exact ⟨elem, helem, rfl, rfl⟩
  | whitelist name symbol ct cc ltv =>
      simp only [handle, whitelistCmd] at h
      by_cases hs : env.sender ≠ s.config.owner_addr
      · rw [if_pos hs] at h; cases h
      · rw [if_neg hs] at h
        cases hct : alGet s.whitelist ct with
        | some e0 => simp only [hct] at h; cases h
        | none =>
            simp only [hct] at h
            cases h
            have hne : asset ≠ ct := by
              intro he
              rw [he, hct] at helem
              cases helem
            refine ⟨elem, ?_, rfl, rfl⟩
            simp only [alGet, if_neg hne]
            exact helem
  | updateWhitelist ct cc ltv =>
      simp only [handle, updateWhitelistCmd] at h
      by_cases hs : env.sender ≠ s.config.owner_addr
      · rw [if_pos hs] at h; cases h
      · rw [if_neg hs] at h
        cases hct : alGet s.whitelist ct with
        | none => simp only [hct] at h; cases h
        | some e0 =>
            simp only [hct] at h
            cases h
            by_cases ha : asset = ct
            · subst ha
              have he : e0 = elem := Option.some.inj (hct.symm.trans helem)
              subst he
              refine ⟨{ e0 with
                          custody_contract := cc.getD e0.custody_contract,
                          max_ltv := ltv.getD e0.max_ltv }, ?_, rfl, rfl⟩
              exact alGet_alSet_self _ _ _
            · rw [alGet_alSet_ne _ _ _ _ ha]
              exact ⟨elem, helem, rfl, rfl⟩
  | executeEpochOperations =>
      simp only [handle, executeEpochOperations] at h
      by_cases hel : env.block_height
          < s.epoch_state.last_executed_height + s.config.epoch_period
      · rw [if_pos hel] at h; cases h
      · rw [if_neg hel] at h
        cases h
        exact ⟨elem, helem, rfl, rfl⟩
  | updateEpochState buf =>
      simp only [handle, updateEpochState] at h
      by_cases hs : env.sender ≠ s.config.market_contract
      · rw [if_pos hs] at h; cases h
      · rw [if_neg hs] at h
        cases h
        exact ⟨elem, helem, rfl, rfl⟩
  | lockCollateral batch =>
      simp only [handle] at h
      obtain ⟨-, -, hw, -, -⟩ := lockCollateral_ok_spec s env.sender batch s2 out h
      rw [hw]
      exact ⟨elem, helem, rfl, rfl⟩
  | unlockCollateral batch =>
      simp only [handle, unlockCollateral] at h
      cases h1 : unlockToks (positionsOf s env.sender) batch with
      | error e => simp only [h1] at h; cases h
      | ok toks2 =>
          simp only [h1] at h
          cases h2 : borrowLimitToks s.config s.whitelist env.oracle
              env.block_time toks2 with
          | error e => simp only [h2] at h; cases h
          | ok limit =>
              simp only [h2] at h
              by_cases h3 : limit < env.debt_of env.sender
              · rw [if_pos h3] at h; cases h
              · rw [if_neg h3] at h
                cases h
                exact ⟨elem, helem, rfl, rfl⟩
  | liquidateCollateral borrower =>
      simp only [handle, liquidateCollateral] at h
      cases h1 : borrowLimitToks s.config s.whitelist env.oracle env.block_time
          (positionsOf s borrower) with
      | error e => simp only [h1] at h; cases h
      | ok limit =>
          simp only [h1] at h
          by_cases h2 : env.debt_of borrower ≤ limit
          · rw [if_pos h2] at h; cases h
          · rw [if_neg h2] at h
            cases h
            exact ⟨elem, helem, rfl, rfl⟩

/-- Sample environment whose caller is the configured owner. -/
def wEnvOwner : Env := { wEnv with sender := wConfig.owner_addr }

/-- The state after the owner raises `wAsset`'s max LTV. -/
def wStateUpd : State :=
  { wState with
      whitelist := alSet wState.whitelist wAsset
        { wElem with max_ltv := 7 * 10 ^ 17 } }

theorem C10_whitelist_immutable_witness :
    ∃ elem2, alGet wStateUpd.whitelist wAsset = some elem2 ∧
      elem2.name = wElem.name ∧ elem2.symbol = wElem.symbol :=
  C10_whitelist_name_symbol_immutable wState wEnvOwner
    (.updateWhitelist wAsset none (some (7 * 10 ^ 17))) wStateUpd []
    (by decide) wAsset wElem (by decide)

end Overseer
